import Mathlib

/-!
Verification of the remote-path helper module (mnamer/rclone.py).

The module's pure string functions are embedded directly over `List Char`
(`Str` below).  The operations that spawn the external `rclone` process are
embedded as functions of the subprocess outcome (`ProcResult`): the process
itself is an opaque collaborator, so each operation takes the result of its
one `subprocess.run` call as an explicit argument and the embedding captures
everything the Python code does around that call (argument-independent
parsing of stdout and mapping of the caught exception classes to defaults).
-/

/-- Python strings are modelled as lists of characters. -/
abbrev Str := List Char

/-! ## is_remote_path

Python: `bool(re.match(r"^[^/\\]{2,}:", str(path)))`.  The regex match is
embedded as a direct scan: a match exists iff some position `k ≥ 2` holds a
colon with no '/' or '\' before it.  `matchRemote l n` scans `l` where `n`
characters (all of them non-slash) have already been consumed. -/
def matchRemote : Str → Nat → Bool
  | [], _ => false
  | c :: rest, n =>
    if c = '/' ∨ c = '\\' then false
    else if c = ':' ∧ 2 ≤ n then true
    else matchRemote rest (n + 1)

/-- Model of `is_remote_path` from src/mnamer/rclone.py. -/
def is_remote_path (s : Str) : Bool := matchRemote s 0

/-! ## parse_remote_path

Python: `path_str.split(":", 1)` when a colon is present, else `("", path)`. -/

/-- Split at the first colon: `some (before, after)`, or `none` when the
string holds no colon. -/
def splitFirstColon : Str → Option (Str × Str)
  | [] => none
  | c :: rest =>
    if c = ':' then some ([], rest)
    else
      match splitFirstColon rest with
      | some (a, b) => some (c :: a, b)
      | none => none

/-- Model of `parse_remote_path` from src/mnamer/rclone.py. -/
def parse_remote_path (s : Str) : Str × Str :=
  match splitFirstColon s with
  | some (a, b) => (a, b)
  | none => ([], s)

/-! ## POSIX pure paths

`join_remote_path` and `rclone_exists` use `pathlib.PurePosixPath`.  A pure
POSIX path is parsed into a root ("" , "/" or, for a path starting with
exactly two slashes, "//") and a list of components (the '/'-separated
segments, empty segments and "." dropped); it prints as the root followed by
the components joined with '/', or "." when both are empty.  Joining path
segments follows `posixpath.join`: a segment starting with '/' replaces
everything accumulated so far. -/

/-- Split a string on a separator character, keeping empty segments
(Python `str.split(sep)`); the result is never the empty list. -/
def splitChar (sep : Char) : Str → List Str
  | [] => [[]]
  | c :: rest =>
    if c = sep then [] :: splitChar sep rest
    else
      match splitChar sep rest with
      | [] => [[c]]
      | s :: ss => (c :: s) :: ss

/-- The root of a POSIX path string: "/" for one or three-or-more leading
slashes, "//" for exactly two, "" otherwise (`posixpath.splitroot`). -/
def parseRoot (s : Str) : Str :=
  match s with
  | [] => []
  | [c1] => if c1 = '/' then ['/'] else []
  | [c1, c2] =>
    if c1 = '/' then (if c2 = '/' then ['/', '/'] else ['/']) else []
  | c1 :: c2 :: c3 :: _ =>
    if c1 = '/' then
      (if c2 = '/' then (if c3 = '/' then ['/'] else ['/', '/']) else ['/'])
    else []

/-- The components of a POSIX path string: '/'-separated segments with empty
segments and "." dropped. -/
def parseParts (s : Str) : List Str :=
  (splitChar '/' s).filter (fun p => decide (p ≠ [] ∧ p ≠ ['.']))

/-- Print a parsed POSIX path: root then components joined with '/'; "." when
both are empty (`PurePosixPath.__str__`). -/
def pathStr (root : Str) (parts : List Str) : Str :=
  if root ++ List.intercalate ['/'] parts = [] then ['.']
  else root ++ List.intercalate ['/'] parts

/-- `str(PurePosixPath(s))`. -/
def purePosixPathStr (s : Str) : Str := pathStr (parseRoot s) (parseParts s)

/-- `str(PurePosixPath(s).parent)`: drop the last component. -/
def purePosixParent (s : Str) : Str :=
  pathStr (parseRoot s) (parseParts s).dropLast

/-- `PurePosixPath(s).name`: the last component, or "" when there is none. -/
def purePosixName (s : Str) : Str := ((parseParts s).getLast?).getD []

/-- One step of `posixpath.join`: a second argument starting with '/'
replaces the accumulated path; otherwise it is appended, inserting '/'
unless the accumulated path is empty or already ends with '/'. -/
def posixJoin2 (a b : Str) : Str :=
  if b.head? = some '/' then b
  else if a = [] ∨ a.getLast? = some '/' then a ++ b
  else a ++ '/' :: b

/-- `posixpath.join a parts` (left fold of `posixJoin2`). -/
def posixJoin (a : Str) (parts : List Str) : Str := parts.foldl posixJoin2 a

/-- `posixpath.join` over a possibly empty list of segments, '' for none
(the raw path of `PurePosixPath(*parts)`). -/
def joinAll : List Str → Str
  | [] => []
  | p :: rest => posixJoin p rest

/-- Model of `join_remote_path` from src/mnamer/rclone.py:
`PurePosixPath(base_path).joinpath(*parts)` when the parsed base subpath is
non-empty, `PurePosixPath(*parts)` otherwise, reassembled after the remote
name and a colon. -/
def join_remote_path (base : Str) (parts : List Str) : Str :=
  let pr := parse_remote_path base
  let joined :=
    if pr.2 = [] then purePosixPathStr (joinAll parts)
    else purePosixPathStr (posixJoin pr.2 parts)
  pr.1 ++ ':' :: joined

/-! ## Subprocess outcomes

Each operation performs one `subprocess.run(...)` call inside a
`try`/`except` over `CalledProcessError` (non-zero exit status with
`check=True`), `FileNotFoundError` (binary missing) and `TimeoutExpired`.
The embedding passes the call's outcome in explicitly. -/

/-- Outcome of the one `subprocess.run` call an operation makes. -/
inductive ProcResult where
  | ok (stdout : Str)
  | calledProcessError
  | fileNotFound
  | timeoutExpired
deriving DecidableEq

/-- The outcomes the `except` clauses of every operation catch. -/
def ProcResult.isFailure : ProcResult → Bool
  | .ok _ => false
  | _ => true

/-- ASCII whitespace stripped by Python `str.strip()` (the model covers the
ASCII range; exotic Unicode spaces do not occur in the outputs parsed). -/
def isPySpace (c : Char) : Bool :=
  c == ' ' || c == '\t' || c == '\n' || c == '\r' || c == '\x0b' || c == '\x0c'

/-- Python `str.strip()`: drop leading and trailing whitespace. -/
def pyStrip (s : Str) : Str :=
  ((s.dropWhile isPySpace).reverse.dropWhile isPySpace).reverse

/-- Model of `check_rclone_installed`: true only on a clean exit. -/
def check_rclone_installed (r : ProcResult) : Bool :=
  match r with
  | .ok _ => true
  | _ => false

/-- Model of `rclone_listremotes`: split the stripped stdout on newlines,
keep the non-empty raw lines, strip each line's trailing colons
(`line.rstrip(":")`); any caught failure yields []. -/
def rclone_listremotes (r : ProcResult) : List Str :=
  match r with
  | .ok out =>
    ((splitChar '\n' (pyStrip out)).filter (fun l => decide (l ≠ []))).map
      (fun l => (l.reverse.dropWhile (fun c => c == ':')).reverse)
  | _ => []

/-- The stdout parsing of `rclone_lsf`: strip the whole output, split on
newlines, strip each line and keep the non-blank ones.  (Python's
`[line.strip() for line in out.strip().split("\n") if line.strip()]` filters
on the stripped line and keeps the stripped line, which is map-then-filter.) -/
def lsfParse (out : Str) : List Str :=
  ((splitChar '\n' (pyStrip out)).map pyStrip).filter (fun l => decide (l ≠ []))

/-- Model of `rclone_lsf`: parsed listing on success, [] on any caught
failure.  The `recursive` / `files_only` arguments only shape the argv of
the external process and so do not appear in the embedding. -/
def rclone_lsf (r : ProcResult) : List Str :=
  match r with
  | .ok out => lsfParse out
  | _ => []

/-- Model of `rclone_move` (`rclone moveto src dst`): true only on a clean
exit. -/
def rclone_move (r : ProcResult) : Bool :=
  match r with
  | .ok _ => true
  | _ => false

/-- Model of `rclone_mkdir` (`rclone mkdir path`): true only on a clean
exit. -/
def rclone_mkdir (r : ProcResult) : Bool :=
  match r with
  | .ok _ => true
  | _ => false

/-! ## JSON values and json.loads

`rclone_size` runs `json.loads` on stdout and then
`int(data.get("bytes", 0))`.  `json.loads` is embedded as a recursive
descent parser over the integer-numeral fragment of JSON: numerals with a
fraction or exponent part and `\u` string escapes are outside the modelled
fragment (the size output holds a plain integer), everything else follows
the JSON grammar Python accepts, including whitespace placement, rejection
of leading zeros and of trailing data, and last-key-wins objects. -/

/-- JSON values (numbers restricted to integers). -/
inductive Json where
  | null
  | bool (b : Bool)
  | num (n : Int)
  | str (s : Str)
  | arr (elems : List Json)
  | obj (members : List (Str × Json))

/-- JSON insignificant whitespace. -/
def isJsonWs (c : Char) : Bool :=
  c == ' ' || c == '\t' || c == '\n' || c == '\r'

def skipWs (s : Str) : Str := s.dropWhile isJsonWs

/-- Resolution of a backslash escape inside a JSON string. -/
def escChar (c : Char) : Option Char :=
  if c = '"' then some '"'
  else if c = '\\' then some '\\'
  else if c = '/' then some '/'
  else if c = 'b' then some '\x08'
  else if c = 'f' then some '\x0c'
  else if c = 'n' then some '\n'
  else if c = 'r' then some '\r'
  else if c = 't' then some '\t'
  else none

/-- Parse the body of a JSON string after the opening quote; raw control
characters are rejected as Python's strict mode does. -/
def pString : Str → Option (Str × Str)
  | [] => none
  | '"' :: rest => some ([], rest)
  | '\\' :: rest =>
    match rest with
    | [] => none
    | e :: rest2 =>
      match escChar e with
      | some c =>
        match pString rest2 with
        | some (cs, r) => some (c :: cs, r)
        | none => none
      | none => none
  | c :: rest =>
    if c.toNat < 32 then none
    else
      match pString rest with
      | some (cs, r) => some (c :: cs, r)
      | none => none

def natOfDigits (l : Str) : Nat :=
  l.foldl (fun acc c => acc * 10 + (c.toNat - 48)) 0

/-- Parse an unsigned JSON integer numeral: "0", or a nonzero digit
followed by digits (leading zeros are rejected, as in Python's json). -/
def pNat : Str → Option (Nat × Str)
  | [] => none
  | c :: rest =>
    if c = '0' then some (0, rest)
    else if c.isDigit then
      some (natOfDigits ((c :: rest).takeWhile Char.isDigit),
            (c :: rest).dropWhile Char.isDigit)
    else none

mutual

/-- Parse one JSON value (leading whitespace already skipped). -/
def pValue : Nat → Str → Option (Json × Str)
  | 0, _ => none
  | fuel + 1, s =>
    match s with
    | 'n' :: 'u' :: 'l' :: 'l' :: rest => some (.null, rest)
    | 't' :: 'r' :: 'u' :: 'e' :: rest => some (.bool true, rest)
    | 'f' :: 'a' :: 'l' :: 's' :: 'e' :: rest => some (.bool false, rest)
    | '"' :: rest =>
      match pString rest with
      | some (cs, r) => some (.str cs, r)
      | none => none
    | '[' :: rest =>
      match skipWs rest with
      | ']' :: r2 => some (.arr [], r2)
      | r1 =>
        match pArrayItems fuel r1 with
        | some (xs, r) => some (.arr xs, r)
        | none => none
    | '\x7b' :: rest =>
      match skipWs rest with
      | '\x7d' :: r2 => some (.obj [], r2)
      | r1 =>
        match pObjItems fuel r1 with
        | some (kvs, r) => some (.obj kvs, r)
        | none => none
    | '-' :: rest =>
      match pNat rest with
      | some (n, r) => some (.num (-(n : Int)), r)
      | none => none
    | c :: rest =>
      if c.isDigit then
        match pNat (c :: rest) with
        | some (n, r) => some (.num (n : Int), r)
        | none => none
      else none
    | [] => none

/-- Parse the elements of a non-empty JSON array body. -/
def pArrayItems : Nat → Str → Option (List Json × Str)
  | 0, _ => none
  | fuel + 1, s =>
    match pValue fuel s with
    | none => none
    | some (j, r) =>
      match skipWs r with
      | ',' :: r2 =>
        match pArrayItems fuel (skipWs r2) with
        | some (xs, r3) => some (j :: xs, r3)
        | none => none
      | ']' :: r2 => some ([j], r2)
      | _ => none

/-- Parse the members of a non-empty JSON object body. -/
def pObjItems : Nat → Str → Option (List (Str × Json) × Str)
  | 0, _ => none
  | fuel + 1, s =>
    match s with
    | '"' :: rest =>
      match pString rest with
      | none => none
      | some (k, r1) =>
        match skipWs r1 with
        | ':' :: r2 =>
          match pValue fuel (skipWs r2) with
          | none => none
          | some (v, r3) =>
            match skipWs r3 with
            | ',' :: r4 =>
              match pObjItems fuel (skipWs r4) with
              | some (kvs, r5) => some ((k, v) :: kvs, r5)
              | none => none
            | '\x7d' :: r4 => some ([(k, v)], r4)
            | _ => none
        | _ => none
    | _ => none

end

/-- Model of `json.loads`: parse one value surrounded by whitespace,
rejecting trailing data; `none` stands for `json.JSONDecodeError`.  The fuel
bounds the recursion depth and exceeds what any input of this length can
consume. -/
def jsonParse (s : Str) : Option Json :=
  match pValue (2 * s.length + 4) (skipWs s) with
  | some (j, rest) => if skipWs rest = [] then some j else none
  | none => none

/-- Lookup in a decoded JSON object.  Python builds a dict, so of duplicate
keys the last wins. -/
def lookupLast (k : Str) : List (Str × Json) → Option Json
  | [] => none
  | (k2, v) :: rest =>
    match lookupLast k rest with
    | some r => some r
    | none => if k2 = k then some v else none

/-- The Python exceptions the post-parse computation of `rclone_size` can
raise. -/
inductive PyExc where
  | attributeError
  | typeError
  | valueError
deriving DecidableEq

/-- Python `int(s)` on a string: strip whitespace, optional sign, ASCII
digits (underscore separators and non-ASCII digits are outside the modelled
fragment); `none` stands for `ValueError`. -/
def parseIntStr (s : Str) : Option Int :=
  match pyStrip s with
  | '+' :: ds =>
    if ds ≠ [] ∧ ds.all Char.isDigit then some (natOfDigits ds : Int) else none
  | '-' :: ds =>
    if ds ≠ [] ∧ ds.all Char.isDigit then some (-(natOfDigits ds : Int)) else none
  | ds =>
    if ds ≠ [] ∧ ds.all Char.isDigit then some (natOfDigits ds : Int) else none

/-- `data.get("bytes", 0)`: on a non-dict value `.get` raises
`AttributeError`. -/
def pyGet_bytes : Json → Except PyExc Json
  | .obj kvs => .ok ((lookupLast ("bytes".data) kvs).getD (.num 0))
  | _ => .error .attributeError

/-- `int(x)` on a decoded JSON value: ints pass through, bools become 0/1,
numeric strings are parsed (`ValueError` otherwise), anything else raises
`TypeError`. -/
def pyIntOf : Json → Except PyExc Int
  | .num n => .ok n
  | .bool b => .ok (if b then 1 else 0)
  | .str s =>
    match parseIntStr s with
    | some n => .ok n
    | none => .error .valueError
  | _ => .error .typeError

/-- Model of `rclone_size`: `int(json.loads(stdout).get("bytes", 0))` inside
a `try` whose except clauses are exactly `CalledProcessError`,
`FileNotFoundError`, `TimeoutExpired`, `json.JSONDecodeError` and
`ValueError`; an `AttributeError` or `TypeError` raised by the body is NOT
caught and propagates (`Except.error`). -/
def rclone_size (r : ProcResult) : Except PyExc Int :=
  match r with
  | .ok out =>
    match jsonParse out with
    | none => .ok 0
    | some j =>
      match pyGet_bytes j with
      | .error e => .error e
      | .ok v =>
        match pyIntOf v with
        | .ok n => .ok n
        | .error .valueError => .ok 0
        | .error e => .error e
  | _ => .ok 0

/-- Model of `rclone_exists`: decompose the path, return false for an empty
subpath, otherwise list the parent remote path (bare `remote_name:` when the
POSIX parent is ".", `remote_name:parent` otherwise) non-recursively with
directories included and test membership of the leaf name; the surrounding
`try`/`except Exception` maps any exception from the listing call to false.
The listing call is passed in as an oracle from the queried path to its
outcome, so both a returned listing and a raised exception can be stated. -/
def rclone_exists (path : Str) (lsf : Str → Except PyExc (List Str)) : Bool :=
  if (parse_remote_path path).2 = [] then false
  else
    match lsf (if purePosixParent (parse_remote_path path).2 = ['.']
               then (parse_remote_path path).1 ++ [':']
               else (parse_remote_path path).1 ++ ':' ::
                 purePosixParent (parse_remote_path path).2) with
    | .ok files => decide (purePosixName (parse_remote_path path).2 ∈ files)
    | .error _ => false

/-! ## Lemmas about the scan behind is_remote_path -/

theorem matchRemote_iff (l : Str) : ∀ n : Nat,
    matchRemote l n = true ↔
      ∃ pre post : Str, l = pre ++ ':' :: post ∧ 2 ≤ n + pre.length ∧
        ∀ c ∈ pre, ¬(c = '/' ∨ c = '\\') := by
  induction l with
  | nil =>
    intro n
    constructor
    · intro h; simp [matchRemote] at h
    · rintro ⟨pre, post, heq, -, -⟩
      exact absurd heq.symm (by simp)
  | cons c rest ih =>
    intro n
    by_cases h1 : c = '/' ∨ c = '\\'
    · rw [matchRemote, if_pos h1]
      constructor
      · intro h; exact absurd h (by simp)
      · rintro ⟨pre, post, heq, -, hfree⟩
        cases pre with
        | nil =>
          simp only [List.nil_append, List.cons.injEq] at heq
          rcases h1 with h | h <;> rw [h] at heq <;> exact absurd heq.1 (by decide)
        | cons p pre' =>
          simp only [List.cons_append, List.cons.injEq] at heq
          exact absurd (heq.1 ▸ h1) (hfree p (by simp))
    · by_cases h2 : c = ':' ∧ 2 ≤ n
      · rw [matchRemote, if_neg h1, if_pos h2]
        constructor
        · intro _
          exact ⟨[], rest, by rw [h2.1]; rfl, by simpa using h2.2, by simp⟩
        · intro _; rfl
      · rw [matchRemote, if_neg h1, if_neg h2, ih (n + 1)]
        constructor
        · rintro ⟨pre, post, heq, hlen, hfree⟩
          refine ⟨c :: pre, post, by rw [heq]; rfl, ?_, ?_⟩
          · simpa [Nat.add_comm, Nat.add_assoc, Nat.add_left_comm] using hlen
          · intro x hx
            rcases List.mem_cons.mp hx with h | h
            · exact h ▸ h1
            · exact hfree x h
        · rintro ⟨pre, post, heq, hlen, hfree⟩
          cases pre with
          | nil =>
            simp only [List.nil_append, List.cons.injEq] at heq
            exact absurd ⟨heq.1, by simpa using hlen⟩ h2
          | cons p pre' =>
            simp only [List.cons_append, List.cons.injEq] at heq
            refine ⟨pre', post, heq.2, ?_, ?_⟩
            · simpa [Nat.add_comm, Nat.add_assoc, Nat.add_left_comm] using hlen
            · intro x hx; exact hfree x (by simp [hx])

/-! ## Lemmas about splitFirstColon -/

theorem splitFirstColon_of_not_mem (s : Str) (h : ':' ∉ s) :
    splitFirstColon s = none := by
  induction s with
  | nil => rfl
  | cons c rest ih =>
    rw [splitFirstColon]
    rw [if_neg (by intro hc; exact h (by simp [hc]))]
    rw [ih (by intro hc; exact h (by simp [hc]))]

theorem splitFirstColon_append (pre post : Str) (h : ':' ∉ pre) :
    splitFirstColon (pre ++ ':' :: post) = some (pre, post) := by
  induction pre with
  | nil => simp [splitFirstColon]
  | cons c pre' ih =>
    rw [List.cons_append, splitFirstColon]
    rw [if_neg (by intro hc; exact h (by simp [hc]))]
    rw [ih (by intro hc; exact h (by simp [hc]))]

theorem splitFirstColon_sound (s : Str) :
    ∀ a b : Str, splitFirstColon s = some (a, b) → s = a ++ ':' :: b ∧ ':' ∉ a := by
  induction s with
  | nil => intro a b h; exact absurd h (by simp [splitFirstColon])
  | cons c rest ih =>
    intro a b h
    rw [splitFirstColon] at h
    by_cases hc : c = ':'
    · rw [if_pos hc] at h
      simp only [Option.some.injEq, Prod.mk.injEq] at h
      rw [← h.1, ← h.2, hc]
      exact ⟨by simp, by simp⟩
    · rw [if_neg hc] at h
      cases hsp : splitFirstColon rest with
      | none => rw [hsp] at h; exact absurd h (by simp)
      | some p =>
        rw [hsp] at h
        obtain ⟨a', b'⟩ := p
        simp only [Option.some.injEq, Prod.mk.injEq] at h
        obtain ⟨hs, hnm⟩ := ih a' b' hsp
        rw [← h.1, ← h.2, hs]
        constructor
        · simp
        · intro hmem
          rcases List.mem_cons.mp hmem with hx | hx
          · exact hc hx.symm
          · exact hnm hx

theorem splitFirstColon_isSome (s : Str) (h : ':' ∈ s) :
    ∃ a b : Str, splitFirstColon s = some (a, b) := by
  induction s with
  | nil => exact absurd h (by simp)
  | cons c rest ih =>
    rw [splitFirstColon]
    by_cases hc : c = ':'
    · exact ⟨[], rest, by rw [if_pos hc]⟩
    · have hr : ':' ∈ rest := by
        rcases List.mem_cons.mp h with hx | hx
        · exact absurd hx.symm hc
        · exact hx
      obtain ⟨a, b, hab⟩ := ih hr
      exact ⟨c :: a, b, by rw [if_neg hc, hab]⟩

/-! ## Claim theorems for the pure classification and decomposition -/

/-- C1: `is_remote_path` returns true exactly on strings matching the
anchored pattern `^[^/\\]{2,}:` (two or more characters none of which is a
slash, then a colon); in particular it is false on the Windows-drive path
"C:/Users/test.mkv" and on a string whose colon is preceded by a slash. -/
theorem c1_is_remote_path_pattern :
    (∀ s : Str, is_remote_path s = true ↔
      ∃ pre post : Str, s = pre ++ ':' :: post ∧ 2 ≤ pre.length ∧
        ∀ c ∈ pre, ¬(c = '/' ∨ c = '\\')) ∧
    is_remote_path ("C:/Users/test.mkv".data) = false ∧
    is_remote_path ("ab/cd:x.mkv".data) = false := by
  refine ⟨fun s => ?_, by decide, by decide⟩
  simpa using matchRemote_iff s 0

/-- C5: `parse_remote_path` splits on the first colon and is total: with no
colon it returns an empty remote name and the whole input as subpath. -/
theorem c5_parse_remote_path_first_colon :
    parse_remote_path ("gdrive:/movies/test.mkv".data)
        = ("gdrive".data, "/movies/test.mkv".data) ∧
    parse_remote_path ("/local/path".data) = ([], "/local/path".data) ∧
    (∀ pre post : Str, ':' ∉ pre →
      parse_remote_path (pre ++ ':' :: post) = (pre, post)) ∧
    (∀ s : Str, ':' ∉ s → parse_remote_path s = ([], s)) := by
  refine ⟨by decide, by decide, fun pre post h => ?_, fun s h => ?_⟩
  · rw [parse_remote_path, splitFirstColon_append pre post h]
  · rw [parse_remote_path, splitFirstColon_of_not_mem s h]

/-- C9: `parse_remote_path` loses no information: when the input holds a
colon, remote_name ++ ":" ++ subpath rebuilds the input exactly; when it
holds none the result is ("", input). -/
theorem c9_parse_remote_path_roundtrip :
    (∀ s : Str, ':' ∈ s →
      (parse_remote_path s).1 ++ ':' :: (parse_remote_path s).2 = s) ∧
    (∀ s : Str, ':' ∉ s → parse_remote_path s = ([], s)) := by
  constructor
  · intro s h
    obtain ⟨a, b, hab⟩ := splitFirstColon_isSome s h
    rw [parse_remote_path, hab]
    exact ((splitFirstColon_sound s a b hab).1).symm
  · intro s h
    rw [parse_remote_path, splitFirstColon_of_not_mem s h]

/-- C8: the classifier and the decomposition disagree on single-letter drive
prefixes: "C:/Users/test.mkv" is classified local (false), yet
`parse_remote_path` returns the non-empty remote name "C". -/
theorem c8_drive_letter_disagreement :
    is_remote_path ("C:/Users/test.mkv".data) = false ∧
    (parse_remote_path ("C:/Users/test.mkv".data)).1 = "C".data ∧
    "C".data ≠ [] := by decide

/-! ## Lemmas about the POSIX path model -/

theorem splitChar_ne_nil (sep : Char) (s : Str) : splitChar sep s ≠ [] := by
  cases s with
  | nil => simp [splitChar]
  | cons c rest =>
    by_cases hc : c = sep
    · simp [splitChar, hc]
    · cases h : splitChar sep rest with
      | nil => simp [splitChar, hc, h]
      | cons a as => simp [splitChar, hc, h]

theorem splitChar_append (sep : Char) (a b : Str) :
    splitChar sep (a ++ sep :: b) = splitChar sep a ++ splitChar sep b := by
  induction a with
  | nil => simp [splitChar]
  | cons c a' ih =>
    by_cases hc : c = sep
    · simp [splitChar, hc, ih]
    · cases h : splitChar sep a' with
      | nil => exact absurd h (splitChar_ne_nil sep a')
      | cons s ss => simp [splitChar, hc, ih, h]

theorem splitChar_of_not_mem (sep : Char) (s : Str) (h : sep ∉ s) :
    splitChar sep s = [s] := by
  induction s with
  | nil => rfl
  | cons c rest ih =>
    have hc : ¬(c = sep) := fun hcs => h (by rw [hcs]; exact List.mem_cons_self sep rest)
    have hr : sep ∉ rest := fun hm => h (List.mem_cons_of_mem c hm)
    simp [splitChar, hc, ih hr]

theorem parseParts_append (a b : Str) :
    parseParts (a ++ '/' :: b) = parseParts a ++ parseParts b := by
  rw [parseParts, parseParts, parseParts, splitChar_append, List.filter_append]

theorem parseParts_simple (p : Str) (h1 : p ≠ []) (h2 : '/' ∉ p) (h3 : p ≠ ['.']) :
    parseParts p = [p] := by
  rw [parseParts, splitChar_of_not_mem '/' p h2]
  simp [List.filter, h1, h3]

theorem parseParts_nil : parseParts [] = [] := by decide

theorem parseRoot_three (c1 c2 c3 : Char) (r1 r2 : Str) :
    parseRoot (c1 :: c2 :: c3 :: r1) = parseRoot (c1 :: c2 :: c3 :: r2) := rfl

theorem parseRoot_not_slash (c : Char) (r : Str) (h : c ≠ '/') :
    parseRoot (c :: r) = [] := by
  match r with
  | [] => simp [parseRoot, h]
  | [d] => simp [parseRoot, h]
  | d :: e :: r' => simp [parseRoot, h]

theorem parseRoot_slash_cons (c : Char) (r : Str) (h : c ≠ '/') :
    parseRoot ('/' :: c :: r) = ['/'] := by
  match r with
  | [] => simp [parseRoot, h]
  | d :: r' => simp [parseRoot, h]

theorem parseRoot_slashslash_cons (c : Char) (r : Str) (h : c ≠ '/') :
    parseRoot ('/' :: '/' :: c :: r) = ['/', '/'] := by
  simp [parseRoot, h]

theorem parseRoot_mid (a u v : Str) (hu : u.head? ≠ some '/')
    (hv : v.head? ≠ some '/') :
    parseRoot (a ++ '/' :: u) = parseRoot (a ++ '/' :: v) := by
  have slash_cons : ∀ w : Str, w.head? ≠ some '/' → parseRoot ('/' :: w) = ['/'] := by
    intro w hw
    cases w with
    | nil => rfl
    | cons c r =>
      exact parseRoot_slash_cons c r (by intro hc; exact hw (by rw [hc]; rfl))
  have slashslash_cons : ∀ w : Str, w.head? ≠ some '/' →
      parseRoot ('/' :: '/' :: w) = ['/', '/'] := by
    intro w hw
    cases w with
    | nil => rfl
    | cons c r =>
      exact parseRoot_slashslash_cons c r (by intro hc; exact hw (by rw [hc]; rfl))
  match a with
  | [] =>
    rw [List.nil_append, List.nil_append, slash_cons u hu, slash_cons v hv]
  | [c1] =>
    by_cases hc : c1 = '/'
    · rw [hc]
      show parseRoot ('/' :: '/' :: u) = parseRoot ('/' :: '/' :: v)
      rw [slashslash_cons u hu, slashslash_cons v hv]
    · show parseRoot (c1 :: '/' :: u) = parseRoot (c1 :: '/' :: v)
      rw [parseRoot_not_slash c1 _ hc, parseRoot_not_slash c1 _ hc]
  | c1 :: c2 :: a'' =>
    cases a'' with
    | nil => exact parseRoot_three c1 c2 '/' u v
    | cons d a3 => exact parseRoot_three c1 c2 d (a3 ++ '/' :: u) (a3 ++ '/' :: v)

theorem parseRoot_append_rel (a p : Str) (ha : a ≠ [])
    (hl : a.getLast? ≠ some '/') (_hp : p.head? ≠ some '/') :
    parseRoot (a ++ '/' :: p) = parseRoot a := by
  match a with
  | [] => exact absurd rfl ha
  | [c1] =>
    have hc : c1 ≠ '/' := by intro h; exact hl (by rw [h]; rfl)
    show parseRoot (c1 :: '/' :: p) = parseRoot [c1]
    rw [parseRoot_not_slash c1 _ hc, parseRoot_not_slash c1 _ hc]
  | [c1, c2] =>
    have hc2 : c2 ≠ '/' := by
      intro h; exact hl (by rw [h]; rfl)
    by_cases hc1 : c1 = '/'
    · rw [hc1]
      show parseRoot ('/' :: c2 :: '/' :: p) = parseRoot ['/', c2]
      rw [parseRoot_slash_cons c2 _ hc2, parseRoot_slash_cons c2 [] hc2]
    · show parseRoot (c1 :: c2 :: '/' :: p) = parseRoot [c1, c2]
      rw [parseRoot_not_slash c1 _ hc1, parseRoot_not_slash c1 _ hc1]
  | c1 :: c2 :: c3 :: a' =>
    exact parseRoot_three c1 c2 c3 (a' ++ '/' :: p) a'

theorem head_ne_slash_of_simple (p : Str) (h1 : p ≠ []) (h2 : '/' ∉ p) :
    p.head? ≠ some '/' := by
  cases p with
  | nil => exact absurd rfl h1
  | cons c r =>
    intro hc
    have : c = '/' := by injection hc
    exact h2 (by rw [← this]; exact List.mem_cons_self c r)

theorem parse_posixJoin2 (a p : Str) (ha : a ≠ []) (hp1 : p ≠ [])
    (hp2 : '/' ∉ p) (hp3 : p ≠ ['.']) :
    posixJoin2 a p ≠ [] ∧ parseRoot (posixJoin2 a p) = parseRoot a ∧
      parseParts (posixJoin2 a p) = parseParts a ++ [p] := by
  have hhead : p.head? ≠ some '/' := head_ne_slash_of_simple p hp1 hp2
  simp only [posixJoin2]
  rw [if_neg hhead]
  by_cases hl : a = [] ∨ a.getLast? = some '/'
  · rw [if_pos hl]
    have hlast : a.getLast? = some '/' := hl.resolve_left ha
    obtain ⟨a', rfl⟩ : ∃ a', a = a' ++ ['/'] := by
      rcases List.eq_nil_or_concat a with h | ⟨a', c, hc⟩
      · exact absurd h ha
      · refine ⟨a', ?_⟩
        rw [hc, List.concat_eq_append] at hlast ⊢
        rw [List.getLast?_concat] at hlast
        have : c = '/' := by injection hlast
        rw [this]
    have hshape : a' ++ ['/'] ++ p = a' ++ '/' :: p := by simp
    refine ⟨by simp [hshape, hp1], ?_, ?_⟩
    · rw [hshape]
      have : (a' : Str) ++ ['/'] = a' ++ '/' :: ([] : Str) := rfl
      rw [this, parseRoot_mid a' p [] hhead (by simp)]
    · rw [hshape, parseParts_append a' p, parseParts_simple p hp1 hp2 hp3]
      have : (a' : Str) ++ ['/'] = a' ++ '/' :: ([] : Str) := rfl
      rw [this, parseParts_append a' [], parseParts_nil, List.append_nil]
  · rw [if_neg hl]
    push_neg at hl
    refine ⟨by simp [ha], ?_, ?_⟩
    · exact parseRoot_append_rel a p ha hl.2 hhead
    · rw [parseParts_append a p, parseParts_simple p hp1 hp2 hp3]

theorem posixJoin_parse (parts : List Str) : ∀ a : Str, a ≠ [] →
    (∀ p ∈ parts, p ≠ [] ∧ '/' ∉ p ∧ p ≠ ['.']) →
    posixJoin a parts ≠ [] ∧ parseRoot (posixJoin a parts) = parseRoot a ∧
      parseParts (posixJoin a parts) = parseParts a ++ parts := by
  induction parts with
  | nil => intro a ha _; exact ⟨ha, rfl, by simp [posixJoin]⟩
  | cons p rest ih =>
    intro a ha hsimple
    obtain ⟨h1, h2, h3⟩ := hsimple p (List.mem_cons_self p rest)
    obtain ⟨hne, hroot, hparts⟩ := parse_posixJoin2 a p ha h1 h2 h3
    have hstep : posixJoin a (p :: rest) = posixJoin (posixJoin2 a p) rest := rfl
    obtain ⟨hne2, hroot2, hparts2⟩ :=
      ih (posixJoin2 a p) hne (fun q hq => hsimple q (List.mem_cons_of_mem p hq))
    refine ⟨by rw [hstep]; exact hne2, ?_, ?_⟩
    · rw [hstep, hroot2, hroot]
    · rw [hstep, hparts2, hparts, List.append_assoc]
      rfl

theorem posixJoin_reset (a q : Str) (pre post : List Str)
    (hq : q.head? = some '/') :
    posixJoin a (pre ++ q :: post) = posixJoin q post := by
  have hstep : posixJoin2 (List.foldl posixJoin2 a pre) q = q := by
    simp only [posixJoin2]
    rw [if_pos hq]
  rw [posixJoin, List.foldl_append, List.foldl_cons, hstep]
  rfl

/-! ## Claim theorems for join_remote_path -/

/-- C6: `join_remote_path` splits the base into remote name and base
subpath, POSIX-joins the parts under the base subpath when it is non-empty
(appending them as components when they are plain names) and joins the parts
alone otherwise, and reassembles remote_name:joined; on the two spec
examples it yields "gdrive:/movies/action/test.mkv" and
"gdrive:movies/test.mkv". -/
theorem c6_join_remote_path :
    join_remote_path ("gdrive:/movies".data) ["action".data, "test.mkv".data]
        = "gdrive:/movies/action/test.mkv".data ∧
    join_remote_path ("gdrive:".data) ["movies".data, "test.mkv".data]
        = "gdrive:movies/test.mkv".data ∧
    (∀ (base : Str) (parts : List Str), join_remote_path base parts =
      (parse_remote_path base).1 ++ ':' ::
        (if (parse_remote_path base).2 = [] then purePosixPathStr (joinAll parts)
         else purePosixPathStr (posixJoin (parse_remote_path base).2 parts))) ∧
    (∀ (base : Str) (parts : List Str), (parse_remote_path base).2 ≠ [] →
      (∀ p ∈ parts, p ≠ [] ∧ '/' ∉ p ∧ p ≠ ['.']) →
      join_remote_path base parts =
        (parse_remote_path base).1 ++ ':' ::
          pathStr (parseRoot (parse_remote_path base).2)
            (parseParts (parse_remote_path base).2 ++ parts)) := by
  refine ⟨by decide, by decide, fun base parts => rfl, fun base parts hne hsimple => ?_⟩
  obtain ⟨-, hroot, hparts⟩ :=
    posixJoin_parse parts (parse_remote_path base).2 hne hsimple
  show (parse_remote_path base).1 ++ ':' ::
      (if (parse_remote_path base).2 = [] then purePosixPathStr (joinAll parts)
       else purePosixPathStr (posixJoin (parse_remote_path base).2 parts)) = _
  rw [if_neg hne, purePosixPathStr, hroot, hparts]

/-- C10: in `join_remote_path` with a non-empty base subpath, a part that
begins with "/" discards the base subpath and everything before it: the
result is the remote name, a colon, and the join of that absolute part with
the parts after it; e.g. joining "gdrive:/movies" with "/etc" yields
"gdrive:/etc". -/
theorem c10_absolute_part_overrides :
    (∀ (base q : Str) (pre post : List Str), (parse_remote_path base).2 ≠ [] →
      q.head? = some '/' → (∀ p ∈ post, p.head? ≠ some '/') →
      join_remote_path base (pre ++ q :: post) =
        (parse_remote_path base).1 ++ ':' :: purePosixPathStr (posixJoin q post)) ∧
    join_remote_path ("gdrive:/movies".data) ["/etc".data] = "gdrive:/etc".data := by
  refine ⟨fun base q pre post hne hq _ => ?_, by decide⟩
  show (parse_remote_path base).1 ++ ':' ::
      (if (parse_remote_path base).2 = [] then purePosixPathStr (joinAll (pre ++ q :: post))
       else purePosixPathStr (posixJoin (parse_remote_path base).2 (pre ++ q :: post))) = _
  rw [if_neg hne, posixJoin_reset _ q pre post hq]

/-! ## Lemmas about stripping and the listing parser -/

theorem dropWhile_idem (p : Char → Bool) (l : Str) :
    (l.dropWhile p).dropWhile p = l.dropWhile p := by
  induction l with
  | nil => rfl
  | cons c rest ih =>
    by_cases h : p c
    · simp [List.dropWhile_cons, h, ih]
    · simp [List.dropWhile_cons, h]

theorem dropWhile_head_false (p : Char → Bool) :
    ∀ (l : Str) (c : Char) (r : Str), l.dropWhile p = c :: r → p c = false := by
  intro l
  induction l with
  | nil => intro c r h; exact absurd h (by simp)
  | cons a l' ih =>
    intro c r h
    by_cases hp : p a
    · rw [List.dropWhile_cons, if_pos hp] at h
      exact ih c r h
    · rw [List.dropWhile_cons, if_neg hp] at h
      have ha : a = c := by injection h
      rw [← ha]
      simpa using hp

theorem pyStrip_idem (s : Str) : pyStrip (pyStrip s) = pyStrip s := by
  have hsplit : pyStrip s ++ ((s.dropWhile isPySpace).reverse.takeWhile isPySpace).reverse
      = s.dropWhile isPySpace := by
    rw [pyStrip, ← List.reverse_append, List.takeWhile_append_dropWhile,
      List.reverse_reverse]
  have hA : (pyStrip s).dropWhile isPySpace = pyStrip s := by
    cases hu : pyStrip s with
    | nil => rfl
    | cons c u' =>
      rw [hu] at hsplit
      have hd : List.dropWhile isPySpace s
          = c :: (u' ++ ((s.dropWhile isPySpace).reverse.takeWhile isPySpace).reverse) :=
        hsplit.symm.trans (List.cons_append c u' _)
      have hc : isPySpace c = false := dropWhile_head_false isPySpace s c _ hd
      rw [List.dropWhile_cons, if_neg (by simp [hc])]
  have hB : (pyStrip s).reverse.dropWhile isPySpace = (pyStrip s).reverse := by
    rw [pyStrip, List.reverse_reverse]
    exact dropWhile_idem isPySpace (s.dropWhile isPySpace).reverse
  show (((pyStrip s).dropWhile isPySpace).reverse.dropWhile isPySpace).reverse = pyStrip s
  rw [hA, hB, List.reverse_reverse]

theorem mem_lsfParse (out x : Str) (h : x ∈ lsfParse out) :
    x ≠ [] ∧ pyStrip x = x := by
  rw [lsfParse] at h
  obtain ⟨hmem, hne⟩ := List.mem_filter.mp h
  obtain ⟨y, -, rfl⟩ := List.mem_map.mp hmem
  exact ⟨by simpa using hne, pyStrip_idem y⟩

/-! ## Claim theorems for the subprocess-backed operations -/

/-- C7: the listing parser of `rclone_lsf` trims each line and drops blank
lines: "movie1.mkv\nmovie2.mp4\nshow.avi\n" parses to the three names,
blank-only output parses to [], every caught invocation failure yields [],
and every returned entry is non-empty and whitespace-trimmed. -/
theorem c7_lsf_parsing :
    rclone_lsf (ProcResult.ok ("movie1.mkv\nmovie2.mp4\nshow.avi\n".data))
        = ["movie1.mkv".data, "movie2.mp4".data, "show.avi".data] ∧
    rclone_lsf (ProcResult.ok ("\n  \n\t\n".data)) = [] ∧
    (∀ r : ProcResult, r.isFailure = true → rclone_lsf r = []) ∧
    (∀ out x : Str, x ∈ rclone_lsf (ProcResult.ok out) →
      x ≠ [] ∧ pyStrip x = x) := by
  refine ⟨by decide, by decide, fun r h => ?_, fun out x h => mem_lsfParse out x h⟩
  cases r with
  | ok s => simp [ProcResult.isFailure] at h
  | calledProcessError => rfl
  | fileNotFound => rfl
  | timeoutExpired => rfl

/-- C2 counterexample: not every malformed-output case is contained.  On
stdout "null" (valid JSON that is not an object) `rclone_size` raises an
uncaught `AttributeError` instead of returning its safe default 0, so an
exception does propagate to the caller. -/
theorem c2_counterexample_uncaught_exception :
    rclone_size (ProcResult.ok ("null".data)) = Except.error PyExc.attributeError ∧
    rclone_size (ProcResult.ok ("null".data)) ≠ Except.ok 0 := by
  refine ⟨rfl, fun h => ?_⟩
  have h2 : Except.error PyExc.attributeError = (Except.ok 0 : Except PyExc Int) := h
  exact Except.noConfusion h2

/-- C2 amended: the process-level failure modes (binary not found, non-zero
exit, timeout) are caught by every operation and mapped to its safe default
(false, 0 or []), and undecodable stdout in `rclone_size` is likewise mapped
to 0; `rclone_exists` is false both on an empty parent listing and on an
exception from the listing call.  (Decodable stdout of unexpected shape in
`rclone_size` is not contained — see the counterexample.) -/
theorem c2_amended_failures_to_defaults :
    (∀ r : ProcResult, r.isFailure = true →
      check_rclone_installed r = false ∧ rclone_listremotes r = [] ∧
      rclone_lsf r = [] ∧ rclone_size r = Except.ok 0 ∧
      rclone_move r = false ∧ rclone_mkdir r = false) ∧
    (∀ out : Str, jsonParse out = none →
      rclone_size (ProcResult.ok out) = Except.ok 0) ∧
    (∀ path : Str, rclone_exists path (fun _ => Except.ok []) = false) ∧
    (∀ (path : Str) (e : PyExc),
      rclone_exists path (fun _ => Except.error e) = false) := by
  refine ⟨fun r h => ?_, fun out h => by simp [rclone_size, h],
    fun path => ?_, fun path e => ?_⟩
  · cases r with
    | ok s => simp [ProcResult.isFailure] at h
    | calledProcessError => exact ⟨rfl, rfl, rfl, rfl, rfl, rfl⟩
    | fileNotFound => exact ⟨rfl, rfl, rfl, rfl, rfl, rfl⟩
    | timeoutExpired => exact ⟨rfl, rfl, rfl, rfl, rfl, rfl⟩
  · simp only [rclone_exists]
    by_cases hp : (parse_remote_path path).2 = []
    · rw [if_pos hp]
    · rw [if_neg hp]; simp
  · simp only [rclone_exists]
    by_cases hp : (parse_remote_path path).2 = []
    · rw [if_pos hp]
    · rw [if_neg hp]

/-- C3 counterexample: on stdout {"bytes": null} — a JSON object whose
bytes field is present but non-numeric — `rclone_size` raises an uncaught
`TypeError` from `int(None)` instead of returning 0. -/
theorem c3_counterexample_null_bytes :
    rclone_size (ProcResult.ok ("\x7b\"bytes\": null\x7d".data))
        = Except.error PyExc.typeError ∧
    rclone_size (ProcResult.ok ("\x7b\"bytes\": null\x7d".data)) ≠ Except.ok 0 := by
  refine ⟨rfl, fun h => ?_⟩
  have h2 : Except.error PyExc.typeError = (Except.ok 0 : Except PyExc Int) := h
  exact Except.noConfusion h2

/-- C3 amended: `rclone_size` returns the integer `bytes` field of the JSON
object on stdout ({"bytes": 1048576} yields 1048576); it returns 0 on every
caught process failure, on undecodable stdout, on a JSON object with the
bytes field absent, and on a non-numeric-string bytes field; but a bytes
field that is null, an array or an object, and stdout decoding to a
non-object, raise uncaught exceptions instead (see the counterexample). -/
theorem c3_amended_size_parsing :
    rclone_size (ProcResult.ok ("\x7b\"bytes\": 1048576\x7d".data))
        = Except.ok 1048576 ∧
    rclone_size (ProcResult.ok ("invalid json".data)) = Except.ok 0 ∧
    rclone_size (ProcResult.ok ("\x7b\"size\": 5\x7d".data)) = Except.ok 0 ∧
    rclone_size (ProcResult.ok ("\x7b\"bytes\": \"abc\"\x7d".data)) = Except.ok 0 ∧
    (∀ r : ProcResult, r.isFailure = true → rclone_size r = Except.ok 0) ∧
    (∀ out : Str, jsonParse out = none →
      rclone_size (ProcResult.ok out) = Except.ok 0) ∧
    (∀ (out : Str) (kvs : List (Str × Json)),
      jsonParse out = some (Json.obj kvs) →
      lookupLast ("bytes".data) kvs = none →
      rclone_size (ProcResult.ok out) = Except.ok 0) ∧
    (∀ (out : Str) (kvs : List (Str × Json)) (n : Int),
      jsonParse out = some (Json.obj kvs) →
      lookupLast ("bytes".data) kvs = some (Json.num n) →
      rclone_size (ProcResult.ok out) = Except.ok n) := by
  refine ⟨rfl, rfl, rfl, rfl, fun r h => ?_,
    fun out h => by simp [rclone_size, h],
    fun out kvs h1 h2 => by simp [rclone_size, h1, pyGet_bytes, h2, pyIntOf],
    fun out kvs n h1 h2 => by simp [rclone_size, h1, pyGet_bytes, h2, pyIntOf]⟩
  cases r with
  | ok s => simp [ProcResult.isFailure] at h
  | calledProcessError => rfl
  | fileNotFound => rfl
  | timeoutExpired => rfl

/-- C4: `rclone_exists` decomposes the path; an empty subpath gives false;
otherwise it lists the parent remote path (bare remote_name: when the POSIX
parent of the subpath is ".", remote_name:parent otherwise) and returns
membership of the leaf name in the listing; an exception from the listing
call gives false.  Concrete cases: a listing holding "test.mkv" makes
exists("gdrive:/movies/test.mkv") true, one without it false, a top-level
file queries the bare "gdrive:", and a raising listing gives false. -/
theorem c4_rclone_exists_parent_listing :
    (∀ (path : Str) (lsf : Str → Except PyExc (List Str)),
      ((parse_remote_path path).2 = [] → rclone_exists path lsf = false) ∧
      ((parse_remote_path path).2 ≠ [] →
        (∀ files : List Str,
          lsf (if purePosixParent (parse_remote_path path).2 = ['.']
               then (parse_remote_path path).1 ++ [':']
               else (parse_remote_path path).1 ++ ':' ::
                 purePosixParent (parse_remote_path path).2) = Except.ok files →
          (rclone_exists path lsf = true ↔
            purePosixName (parse_remote_path path).2 ∈ files)) ∧
        (∀ e : PyExc,
          lsf (if purePosixParent (parse_remote_path path).2 = ['.']
               then (parse_remote_path path).1 ++ [':']
               else (parse_remote_path path).1 ++ ':' ::
                 purePosixParent (parse_remote_path path).2) = Except.error e →
          rclone_exists path lsf = false))) ∧
    rclone_exists ("gdrive:/movies/test.mkv".data)
      (fun p => if p = "gdrive:/movies".data
        then Except.ok ["test.mkv".data, "other.mp4".data]
        else Except.ok []) = true ∧
    rclone_exists ("gdrive:/movies/test.mkv".data)
      (fun p => if p = "gdrive:/movies".data
        then Except.ok ["other.mp4".data] else Except.ok []) = false ∧
    rclone_exists ("gdrive:file.mkv".data)
      (fun p => if p = "gdrive:".data
        then Except.ok ["file.mkv".data] else Except.ok []) = true ∧
    (∀ e : PyExc, rclone_exists ("gdrive:/movies/test.mkv".data)
      (fun _ => Except.error e) = false) := by
  refine ⟨fun path lsf =>
      ⟨fun h => ?_, fun h => ⟨fun files hf => ?_, fun e he => ?_⟩⟩,
    by decide, by decide, by decide, fun e => ?_⟩
  · simp only [rclone_exists]; rw [if_pos h]
  · simp only [rclone_exists]; rw [if_neg h, hf]; simp
  · simp only [rclone_exists]; rw [if_neg h, he]
  · simp only [rclone_exists]; rw [if_neg (by decide)]
